import Mathlib

/-!
Verification development for the botologist IRC client core.

The definitions below are a shallow embedding of the Python source:
`botologist/irc.py` (channel membership maps, socket receive loop,
outgoing-line truncation, reconnect policy) and `botologist/bot.py`
(command resolution, command/reply spam throttling).

Python dictionaries are modelled as association lists with unique keys:
`pyInsert` overwrites an existing binding in place and otherwise appends,
`pyErase` models `del`, `pyLookup` models `dict.get`/`in`.  Timestamps
are natural-number seconds; the `.seconds` field of a Python timedelta
is modelled by `diffSeconds` (difference modulo one day, assuming a
monotonic clock).  Bytes are natural numbers; handler functions are
identified by opaque numeric ids.
-/

namespace Botologist

/-- Python `d.get(k)` / `k in d` on an association list. -/
def pyLookup {α : Type} : List (String × α) → String → Option α
  | [], _ => none
  | (k', v) :: rest, k => if k' = k then some v else pyLookup rest k

/-- Python `d[k] = v`: overwrite the binding in place if the key is
present, otherwise append a new binding. -/
def pyInsert {α : Type} : List (String × α) → String → α → List (String × α)
  | [], k, v => [(k, v)]
  | (k', v') :: rest, k, v =>
    if k' = k then (k, v) :: rest else (k', v') :: pyInsert rest k v

/-- Python `del d[k]`: drop the (first) binding with the given key. -/
def pyErase {α : Type} : List (String × α) → String → List (String × α)
  | [], _ => []
  | (k', v') :: rest, k => if k' = k then rest else (k', v') :: pyErase rest k

/-- The keys of the association list are pairwise distinct (true of every
state reachable from an empty dictionary). -/
def keysNodup {α : Type} (m : List (String × α)) : Prop :=
  (m.map Prod.fst).Nodup

/-- Python truthiness of an optional string argument (`None` and the
empty string are falsy). -/
def pyTruthy : Option String → Bool
  | some s => s != ""
  | none => false

/-- Python string primitives are modelled character-wise over
`String.data` with structural recursion (the core `String` functions
use well-founded recursion over byte positions, which the kernel cannot
evaluate). -/
def strDrop (s : String) (n : Nat) : String :=
  String.mk (s.data.drop n)

/-- Python `str.lower()` (ASCII letters, as `Char.toLower`). -/
def strLower (s : String) : String :=
  String.mk (s.data.map Char.toLower)

/-- Python `s.startswith(p)`. -/
def strStartsWith (p s : String) : Bool :=
  p.data.isPrefixOf s.data

/-- Everything after the first `@`, or `none` when there is no `@`. -/
def dropThroughAt : List Char → Option (List Char)
  | [] => none
  | c :: rest => if c = '@' then some rest else dropThroughAt rest

/-- `irc.py` `User.__init__` host normalization: everything up to and
including the first `@` is stripped (`host[host.index('@')+1:]`); a
host without `@` is unchanged. -/
def stripAtHost (host : String) : String :=
  match dropThroughAt host.data with
  | some rest => String.mk rest
  | none => host

/-- `irc.py` `User`: nick plus normalized host (the ident field plays no
role in the claims below). -/
structure User where
  nick : String
  host : String
deriving DecidableEq

/-- `User(nick, host)` with the `__init__` host normalization. -/
def User.make (nick host : String) : User :=
  { nick := nick, host := stripAtHost host }

/-- `irc.py` `Channel`: name, the two membership maps and the color flag. -/
structure IrcChannel where
  name : String
  host_map : List (String × String)
  nick_map : List (String × String)
  allow_colors : Bool
deriving DecidableEq

/-- `Channel.__init__`: prefix the name with `#` when missing; both maps
start empty. -/
def Channel.init (channel : String) : IrcChannel :=
  { name := match channel.data with
      | '#' :: _ => channel
      | _ => "#" ++ channel,
    host_map := [], nick_map := [], allow_colors := true }

/-- `Channel.add_user`: insert into both maps. -/
def add_user (c : IrcChannel) (u : User) : IrcChannel :=
  { c with host_map := pyInsert c.host_map u.host u.nick,
           nick_map := pyInsert c.nick_map u.nick u.host }

/-- `Channel.find_nick_from_host` (returns `none` instead of `False`). -/
def find_nick_from_host (c : IrcChannel) (host : String) : Option String :=
  pyLookup c.host_map (stripAtHost host)

/-- `Channel.find_host_from_nick` (returns `none` instead of `False`). -/
def find_host_from_nick (c : IrcChannel) (nick : String) : Option String :=
  pyLookup c.nick_map nick

/-- `Channel.remove_user` step 1: `if nick is not None and nick in
self.nick_map: host = self.nick_map[nick]`. -/
def resolveHost (c : IrcChannel) (nick0 host1 : Option String) : Option String :=
  match nick0 with
  | some n =>
    match pyLookup c.nick_map n with
    | some h => some h
    | none => host1
  | none => host1

/-- `Channel.remove_user` step 2: `if host is not None and host in
self.host_map: nick = self.host_map[host]`. -/
def resolveNick (c : IrcChannel) (host2 nick0 : Option String) : Option String :=
  match host2 with
  | some h =>
    match pyLookup c.host_map h with
    | some n => some n
    | none => nick0
  | none => nick0

/-- `if k is not None and k in d: del d[k]`. -/
def eraseIfPresent {α : Type} (m : List (String × α)) : Option String → List (String × α)
  | some k => if (pyLookup m k).isSome then pyErase m k else m
  | none => m

/-- Body of `Channel.remove_user` after the assertion and host
normalization: resolve the counterpart of whichever key is known, then
delete both ends when present. -/
def remove_core (c : IrcChannel) (nick0 host1 : Option String) : IrcChannel :=
  let host2 := resolveHost c nick0 host1
  let nick2 := resolveNick c host2 nick0
  { c with nick_map := eraseIfPresent c.nick_map nick2,
           host_map := eraseIfPresent c.host_map host2 }

/-- `Channel.remove_user(nick=None, host=None)`: `assert nick or host`
(modelled as `Except.error`), normalize the host, then `remove_core`. -/
def remove_user (c : IrcChannel) (nick0 host0 : Option String) : Except String IrcChannel :=
  if pyTruthy nick0 || pyTruthy host0 then
    Except.ok (remove_core c nick0 (host0.map stripAtHost))
  else
    Except.error "assert nick or host"

/-- `Channel.update_nick`: delete the old nick entry when present, then
write the new nick into both maps. -/
def update_nick (c : IrcChannel) (u : User) (new_nick : String) : IrcChannel :=
  let nm0 := if (pyLookup c.nick_map u.nick).isSome
    then pyErase c.nick_map u.nick else c.nick_map
  { c with nick_map := pyInsert nm0 new_nick u.host,
           host_map := pyInsert c.host_map u.host new_nick }

/-- A membership mutation on a channel (the three operations named by
the membership-store claims). -/
inductive MemOp
  | add (u : User)
  | remove (nick0 host0 : Option String)
  | rename (u : User) (new_nick : String)
deriving DecidableEq

/-- Apply one membership operation; a failed `remove_user` assertion
propagates as an exception before any mutation, leaving the channel
unchanged. -/
def applyOp (c : IrcChannel) : MemOp → IrcChannel
  | MemOp.add u => add_user c u
  | MemOp.remove n h =>
    match remove_user c n h with
    | Except.ok c' => c'
    | Except.error _ => c
  | MemOp.rename u nn => update_nick c u nn

/-- Apply a sequence of membership operations in order. -/
def applyOps (c : IrcChannel) (ops : List MemOp) : IrcChannel :=
  ops.foldl applyOp c

/-- The membership-store invariant of the spec: the two maps are inverse
to one another and have equal cardinality. -/
def chanInv (c : IrcChannel) : Prop :=
  (∀ h n, pyLookup c.host_map h = some n ↔ pyLookup c.nick_map n = some h) ∧
  c.host_map.length = c.nick_map.length

/-- Well-formedness: both maps have pairwise-distinct keys (every real
Python dict satisfies this by construction). -/
def chanWF (c : IrcChannel) : Prop :=
  keysNodup c.host_map ∧ keysNodup c.nick_map

/-- Precondition under which a single membership operation preserves the
invariant: an added user must be fresh or already present as the same
pair, and a rename must either target a user currently present under
the old nick with an untaken new nick, or be a fresh insertion. -/
def okOp (c : IrcChannel) : MemOp → Prop
  | MemOp.add u =>
    (pyLookup c.host_map u.host = none ∧ pyLookup c.nick_map u.nick = none) ∨
    pyLookup c.host_map u.host = some u.nick
  | MemOp.remove _ _ => True
  | MemOp.rename u nn =>
    (pyLookup c.host_map u.host = some u.nick ∧
      (nn = u.nick ∨ pyLookup c.nick_map nn = none)) ∨
    (pyLookup c.host_map u.host = none ∧ pyLookup c.nick_map u.nick = none ∧
      pyLookup c.nick_map nn = none)

/-- Every operation of the sequence satisfies its precondition in the
state in which it executes. -/
def okOps : IrcChannel → List MemOp → Prop
  | _, [] => True
  | c, op :: rest => okOp c op ∧ okOps (applyOp c op) rest

/-! Dispatch engine (`bot.py`). -/

/-- The command marker character, `Bot.CMD_PREFIX`. -/
def cmdPrefixStr : String := "!"

/-- `Bot.SPAM_THROTTLE` (seconds). -/
def SPAM_THROTTLE : Nat := 2

/-- `Bot._handle_command` command resolution: strip the prefix from the
first word and lower-case it; an exact registry hit keeps the typed
token as `command.command`, otherwise a unique prefix match substitutes
`cmdPrefixStr ++ full name`.  Returns the resulting `command.command`
string and the handler id, or `none` when zero or several names match.
Handlers are identified by numeric ids. -/
def handle_command (commands : List (String × Nat)) (word0 : String) :
    Option (String × Nat) :=
  let cmd_string := strLower (strDrop word0 1)
  match pyLookup commands cmd_string with
  | some f => some (word0, f)
  | none =>
    match commands.filter (fun p => strStartsWith cmd_string p.1) with
    | [(full, f)] => some (cmdPrefixStr ++ full, f)
    | _ => none

/-- The key under which `Bot._call_command` logs an invocation resolved
from the typed first word (`command.command`). -/
def command_log_key (commands : List (String × Nat)) (word0 : String) : Option String :=
  (handle_command commands word0).map Prod.fst

/-- The `.seconds` field of `now - t` for a Python timedelta between
monotone timestamps: the difference modulo one day (86400 seconds). -/
def diffSeconds (now t : Nat) : Nat :=
  (now - t) % 86400

/-- The data of a `CommandMessage` that `Bot._call_command` consults:
sender host, resolved command string, argument words, admin flag. -/
structure CommandInfo where
  host : String
  command : String
  args : List String
  is_admin : Bool
deriving DecidableEq

/-- The bot's command-throttle state: `Bot._command_log` and
`Bot._last_command`. -/
structure BotThrottle where
  command_log : List (String × Nat)
  last_command : Option (String × String × List String)
deriving DecidableEq

/-- The "check for spam" block of `Bot._call_command`: the attempt is
throttled when the command is in the log, the sender is no admin, and
the elapsed seconds are below the threshold (tripled for a repeat of
the exact last (host, command, args) triple). -/
def command_throttled (st : BotThrottle) (cmd : CommandInfo) (now : Nat) : Bool :=
  match pyLookup st.command_log cmd.command with
  | some t =>
    if cmd.is_admin then false
    else
      let threshold :=
        if st.last_command = some (cmd.host, cmd.command, cmd.args)
        then SPAM_THROTTLE * 3 else SPAM_THROTTLE
      decide (diffSeconds now t < threshold)
  | none => false

/-- `Bot._call_command`: throttle check, then (only when not throttled)
update the last-command cursor and the log entry and fire the handler.
Returns the new state and whether the handler was invoked. -/
def call_command (st : BotThrottle) (cmd : CommandInfo) (now : Nat) :
    BotThrottle × Bool :=
  if command_throttled st cmd now then (st, false)
  else ({ command_log := pyInsert st.command_log cmd.command now,
          last_command := some (cmd.host, cmd.command, cmd.args) }, true)

/-- Python `list.remove(x)`: delete the first occurrence of `x`. -/
def list_remove_first : List String → String → List String
  | [], _ => []
  | y :: rest, x => if y = x then rest else y :: list_remove_first rest x

/-- The non-admin filtering loop of `Bot._call_repliers`, modelled with
Python's `for reply in final_replies` iterator semantics: the iterator
keeps a position `i` into the mutating list, a throttled reply is
removed via `list.remove`, and the per-channel log entry of every
examined reply is refreshed to `now`.  The `fuel` argument only bounds
the iteration count; since `i` grows by one per step and the list never
grows, a fuel of the initial list length is exact: when it reaches zero
the index is already past the end and both exits return the same pair. -/
def repliers_pass (now : Nat) : Nat → Nat → List String → List (String × Nat) →
    List String × List (String × Nat)
  | 0, _, final_replies, rlog => (final_replies, rlog)
  | fuel + 1, i, final_replies, rlog =>
    if h : i < final_replies.length then
      let reply := final_replies.get ⟨i, h⟩
      let throttled : Bool :=
        match pyLookup rlog reply with
        | some t => decide (diffSeconds now t < SPAM_THROTTLE)
        | none => false
      let replies1 := if throttled then list_remove_first final_replies reply
        else final_replies
      repliers_pass now fuel (i + 1) replies1 (pyInsert rlog reply now)
    else (final_replies, rlog)

/-- The throttling part of `Bot._call_repliers` for one channel: admins
bypass the filter entirely (and nothing is logged); otherwise the
accumulated batch is filtered in place.  `rlog` is
`Bot._reply_log[channel.channel]`; returns the outgoing batch and the
updated log. -/
def call_repliers_throttle (rlog : List (String × Nat)) (final_replies : List String)
    (now : Nat) (is_admin : Bool) : List String × List (String × Nat) :=
  if is_admin then (final_replies, rlog)
  else repliers_pass now final_replies.length 0 final_replies rlog

/-! Wire socket (`irc.py` `IRCSocket.recv`) -/

/-- Result of `IRCSocket.recv`: the buffered bytes, an
`IRCSocketError`, a Python `IndexError` (from `data[-2]` on a one-byte
buffer), or blocking forever on the socket for more data. -/
inductive RecvResult
  | ok (data : List Nat)
  | socketError
  | indexError
  | blocked
deriving DecidableEq

/-- The `while` condition of `IRCSocket.recv`:
`data != b'' and (data[-1] != 10 and data[-2] != 13)` with Python's
short-circuit evaluation; `none` models the `IndexError` raised by
`data[-2]` on a one-byte buffer whose byte is not 10. -/
def recvCont (data : List Nat) : Option Bool :=
  match data.reverse with
  | [] => some false
  | [b] => if b = 10 then some false else none
  | b :: c :: _ => some (decide (b ≠ 10) && decide (c ≠ 13))

/-- The read-accumulate loop of `IRCSocket.recv` over a stream of
chunks, starting from buffer `data`: re-check the loop condition, raise
`IRCSocketError` when the loop exits on an empty buffer, and otherwise
return the buffer.  Running out of supplied chunks models a read that
blocks forever.  The final decode step (`botologist.util.decode`, not
part of the sources) is modelled as the identity on bytes. -/
def recvAux : List (List Nat) → List Nat → RecvResult
  | [], data =>
    match recvCont data with
    | none => RecvResult.indexError
    | some false => if data = [] then RecvResult.socketError else RecvResult.ok data
    | some true => RecvResult.blocked
  | c :: rest, data =>
    match recvCont data with
    | none => RecvResult.indexError
    | some false => if data = [] then RecvResult.socketError else RecvResult.ok data
    | some true => recvAux rest (data ++ c)

/-- `IRCSocket.recv`: the first `socket.recv` chunk seeds the buffer,
then the accumulate loop runs. -/
def recv (chunks : List (List Nat)) : RecvResult :=
  match chunks with
  | [] => RecvResult.blocked
  | c :: rest => recvAux rest c

/-- The condition under which the recv loop has stopped with data in the
buffer: the last byte is LF, or (for buffers of two or more bytes) the
second-to-last byte is CR. -/
def stopOk (data : List Nat) : Prop :=
  match data.reverse with
  | [] => False
  | [b] => b = 10
  | b :: c :: _ => b = 10 ∨ c = 13

/-! Outgoing message truncation (`irc.py` `Connection.send`) -/

/-- `Connection.MAX_MSG_CHARS`. -/
def MAX_MSG_CHARS : Nat := 500

/-- The truncation step of `Connection.send`: messages longer than 500
characters become `msg[:497] + '...'`. -/
def send_payload (msg : List Char) : List Char :=
  if msg.length > MAX_MSG_CHARS
  then msg.take (MAX_MSG_CHARS - 3) ++ ('.' :: '.' :: '.' :: [])
  else msg

/-- `Connection.send`: the (possibly truncated) payload followed by the
CR LF terminator. -/
def send_line (msg : List Char) : List Char :=
  send_payload msg ++ ('\r' :: '\n' :: [])

/-! Reconnect policy (`irc.py` `Connection.loop` / `Connection.handle_msg`
/ `Connection.handle_ping_timeout`) -/

/-- The externally visible action a `Connection` event handler takes.
`reconnect (some d)` is `self.reconnect(d)` (a delayed timer),
`reconnect none` is `self.reconnect()` (immediate). -/
inductive ConnAction
  | pong
  | resetPing
  | reconnect (delay : Option Nat)
  | noReconnect
  | other
deriving DecidableEq

/-- Splitting a character list on whitespace runs; `acc` holds the
(reversed) characters of the word being read. -/
def words_chars : List Char → List Char → List (List Char)
  | [], acc => if acc = [] then [] else [acc.reverse]
  | c :: rest, acc =>
    if c.isWhitespace then
      if acc = [] then words_chars rest []
      else acc.reverse :: words_chars rest []
    else words_chars rest (c :: acc)

/-- Python `msg.split()`: split on whitespace runs, discarding empty
pieces. -/
def words_of (msg : String) : List String :=
  (words_chars msg.data []).map String.mk

/-- The throttle text `Connection.handle_msg` looks for inside a
server-sent ERROR line. -/
def throttleErrText : String :=
  ":Your host is trying to (re)connect too fast -- throttled"

/-- Whether `needle` occurs (contiguously) at some position of the
haystack. -/
def containsAux (needle : List Char) : List Char → Bool
  | [] => needle.isEmpty
  | c :: rest => needle.isPrefixOf (c :: rest) || containsAux needle rest

/-- Python `needle in haystack` substring test. -/
def str_contains (hay needle : String) : Bool :=
  containsAux needle.data hay.data

/-- The initial verb dispatch of `Connection.handle_msg`, up to and
including the ERROR branch, mapped to the action taken; later branches
(numeric replies, JOIN, PRIVMSG, ...) never reconnect and are collapsed
into `other`. -/
def handle_msg_action (msg : String) : ConnAction :=
  match words_of msg with
  | [] => ConnAction.other
  | w0 :: _ =>
    if w0 = "PING" then ConnAction.pong
    else if w0 = "PONG" then ConnAction.resetPing
    else if w0 = "ERROR" then
      if str_contains msg throttleErrText then ConnAction.reconnect (some 60)
      else ConnAction.reconnect (some 10)
    else ConnAction.other

/-- The `except OSError` branch of `Connection.loop`: while quitting the
loop just exits; otherwise `self.reconnect(5)`. -/
def recv_error_action (quitting : Bool) : ConnAction :=
  if quitting then ConnAction.noReconnect else ConnAction.reconnect (some 5)

/-- `Connection.handle_ping_timeout`: `self.reconnect()` with no delay. -/
def ping_timeout_action : ConnAction :=
  ConnAction.reconnect none

/-! Association-list dictionary lemmas -/

theorem pyLookup_insert {α : Type} (m : List (String × α)) (k : String) (v : α) :
    pyLookup (pyInsert m k v) k = some v := by
  induction m with
  | nil => simp [pyInsert, pyLookup]
  | cons p rest ih =>
    obtain ⟨k', v'⟩ := p
    by_cases h : k' = k
    · simp [pyInsert, h, pyLookup]
    · simp [pyInsert, h, pyLookup, ih]

theorem pyLookup_insert_ne {α : Type} (m : List (String × α)) (k : String) (v : α)
    (k' : String) (h : k' ≠ k) :
    pyLookup (pyInsert m k v) k' = pyLookup m k' := by
  induction m with
  | nil => simp [pyInsert, pyLookup, Ne.symm h]
  | cons p rest ih =>
    obtain ⟨k₀, v₀⟩ := p
    by_cases h0 : k₀ = k
    · subst h0
      simp [pyInsert, pyLookup, Ne.symm h]
    · by_cases h1 : k₀ = k'
      · simp [pyInsert, pyLookup, h0, h1, h]
      · simp [pyInsert, pyLookup, h0, h1, h, ih]

theorem pyLookup_insert_present {α : Type} (m : List (String × α)) (k : String) (v : α)
    (hp : pyLookup m k = some v) (x : String) :
    pyLookup (pyInsert m k v) x = pyLookup m x := by
  by_cases hx : x = k
  · subst hx
    rw [pyLookup_insert, hp]
  · exact pyLookup_insert_ne m k v x hx

theorem pyInsert_length_present {α : Type} (m : List (String × α)) (k : String) (v : α)
    (hp : (pyLookup m k).isSome) :
    (pyInsert m k v).length = m.length := by
  induction m with
  | nil => simp [pyLookup] at hp
  | cons p rest ih =>
    obtain ⟨k₀, v₀⟩ := p
    by_cases h0 : k₀ = k
    · simp [pyInsert, h0]
    · simp only [pyLookup, if_neg h0] at hp
      simp [pyInsert, h0, ih hp]

theorem pyInsert_length_absent {α : Type} (m : List (String × α)) (k : String) (v : α)
    (hp : pyLookup m k = none) :
    (pyInsert m k v).length = m.length + 1 := by
  induction m with
  | nil => simp [pyInsert]
  | cons p rest ih =>
    obtain ⟨k₀, v₀⟩ := p
    by_cases h0 : k₀ = k
    · simp [pyLookup, h0] at hp
    · simp only [pyLookup, if_neg h0] at hp
      simp [pyInsert, h0, ih hp]

theorem pyLookup_eq_none_iff {α : Type} (m : List (String × α)) (k : String) :
    pyLookup m k = none ↔ k ∉ m.map Prod.fst := by
  induction m with
  | nil => simp [pyLookup]
  | cons p rest ih =>
    obtain ⟨k₀, v₀⟩ := p
    by_cases h0 : k₀ = k
    · simp [pyLookup, h0]
    · simp [pyLookup, h0, ih, Ne.symm h0]

theorem pyLookup_erase_ne {α : Type} (m : List (String × α)) (k k' : String)
    (h : k' ≠ k) :
    pyLookup (pyErase m k) k' = pyLookup m k' := by
  induction m with
  | nil => simp [pyErase]
  | cons p rest ih =>
    obtain ⟨k₀, v₀⟩ := p
    by_cases h0 : k₀ = k
    · subst h0
      simp [pyErase, pyLookup, Ne.symm h]
    · by_cases h1 : k₀ = k'
      · simp [pyErase, pyLookup, h0, h1, h]
      · simp [pyErase, pyLookup, h0, h1, h, ih]

theorem pyErase_keys_sublist {α : Type} (m : List (String × α)) (k : String) :
    List.Sublist ((pyErase m k).map Prod.fst) (m.map Prod.fst) := by
  induction m with
  | nil => simp [pyErase]
  | cons p rest ih =>
    obtain ⟨k₀, v₀⟩ := p
    by_cases h0 : k₀ = k
    · simp only [pyErase, if_pos h0, List.map_cons]
      exact (List.sublist_cons_self _ _)
    · simp only [pyErase, if_neg h0, List.map_cons]
      exact ih.cons₂ k₀

theorem pyLookup_erase_self {α : Type} (m : List (String × α)) (k : String)
    (hnd : keysNodup m) :
    pyLookup (pyErase m k) k = none := by
  induction m with
  | nil => simp [pyErase, pyLookup]
  | cons p rest ih =>
    obtain ⟨k₀, v₀⟩ := p
    simp only [keysNodup, List.map_cons, List.nodup_cons] at hnd
    by_cases h0 : k₀ = k
    · subst h0
      simp only [pyErase, if_pos rfl]
      rw [pyLookup_eq_none_iff]
      exact hnd.1
    · simp [pyErase, pyLookup, h0, ih hnd.2]

theorem pyErase_length_present {α : Type} (m : List (String × α)) (k : String)
    (hp : (pyLookup m k).isSome) :
    (pyErase m k).length + 1 = m.length := by
  induction m with
  | nil => simp [pyLookup] at hp
  | cons p rest ih =>
    obtain ⟨k₀, v₀⟩ := p
    by_cases h0 : k₀ = k
    · simp [pyErase, h0]
    · simp only [pyLookup, if_neg h0] at hp
      simp [pyErase, h0, ih hp]

theorem pyErase_absent {α : Type} (m : List (String × α)) (k : String)
    (hp : pyLookup m k = none) :
    pyErase m k = m := by
  induction m with
  | nil => simp [pyErase]
  | cons p rest ih =>
    obtain ⟨k₀, v₀⟩ := p
    by_cases h0 : k₀ = k
    · simp [pyLookup, h0] at hp
    · simp only [pyLookup, if_neg h0] at hp
      simp [pyErase, h0, ih hp]

theorem keysNodup_erase {α : Type} (m : List (String × α)) (k : String)
    (hnd : keysNodup m) : keysNodup (pyErase m k) :=
  (pyErase_keys_sublist m k).nodup hnd

theorem pyInsert_keys_present {α : Type} (m : List (String × α)) (k : String) (v : α)
    (hp : (pyLookup m k).isSome) :
    (pyInsert m k v).map Prod.fst = m.map Prod.fst := by
  induction m with
  | nil => simp [pyLookup] at hp
  | cons p rest ih =>
    obtain ⟨k₀, v₀⟩ := p
    by_cases h0 : k₀ = k
    · simp [pyInsert, h0]
    · simp only [pyLookup, if_neg h0] at hp
      simp [pyInsert, h0, ih hp]

theorem pyInsert_absent {α : Type} (m : List (String × α)) (k : String) (v : α)
    (hp : pyLookup m k = none) :
    pyInsert m k v = m ++ [(k, v)] := by
  induction m with
  | nil => simp [pyInsert]
  | cons p rest ih =>
    obtain ⟨k₀, v₀⟩ := p
    by_cases h0 : k₀ = k
    · simp [pyLookup, h0] at hp
    · simp only [pyLookup, if_neg h0] at hp
      simp [pyInsert, h0, ih hp]

theorem keysNodup_insert {α : Type} (m : List (String × α)) (k : String) (v : α)
    (hnd : keysNodup m) : keysNodup (pyInsert m k v) := by
  rcases hp : pyLookup m k with _ | v₀
  · rw [pyInsert_absent m k v hp]
    unfold keysNodup at hnd ⊢
    rw [List.map_append]
    simp only [List.map_cons, List.map_nil]
    rw [List.nodup_append]
    refine ⟨hnd, List.nodup_singleton k, ?_⟩
    intro a ha hb
    simp only [List.mem_singleton] at hb
    subst hb
    exact ((pyLookup_eq_none_iff m a).mp hp) ha
  · unfold keysNodup at hnd ⊢
    rw [pyInsert_keys_present m k v (by rw [hp]; rfl)]
    exact hnd

/-! Membership-store invariant preservation -/

theorem fresh_pair_iff (hm nm : List (String × String)) (host nick : String)
    (inv : ∀ x y, pyLookup hm x = some y ↔ pyLookup nm y = some x)
    (hh : pyLookup hm host = none) (hn : pyLookup nm nick = none) :
    ∀ x y, pyLookup (pyInsert hm host nick) x = some y ↔
      pyLookup (pyInsert nm nick host) y = some x := by
  intro x y
  constructor
  · intro hx
    by_cases hxh : x = host
    · subst hxh
      rw [pyLookup_insert] at hx
      injection hx with hy
      subst hy
      exact pyLookup_insert _ _ _
    · rw [pyLookup_insert_ne _ _ _ x hxh] at hx
      by_cases hyn : y = nick
      · have := (inv x y).mp hx
        rw [hyn, hn] at this
        exact absurd this (by simp)
      · rw [pyLookup_insert_ne _ _ _ y hyn]
        exact (inv x y).mp hx
  · intro hy
    by_cases hyn : y = nick
    · subst hyn
      rw [pyLookup_insert] at hy
      injection hy with hx
      subst hx
      exact pyLookup_insert _ _ _
    · rw [pyLookup_insert_ne _ _ _ y hyn] at hy
      by_cases hxh : x = host
      · have := (inv x y).mpr hy
        rw [hxh, hh] at this
        exact absurd this (by simp)
      · rw [pyLookup_insert_ne _ _ _ x hxh]
        exact (inv x y).mpr hy

theorem erase_pair_iff (hm nm : List (String × String)) (host nick : String)
    (wfh : keysNodup hm) (wfn : keysNodup nm)
    (inv : ∀ x y, pyLookup hm x = some y ↔ pyLookup nm y = some x)
    (hp : pyLookup hm host = some nick) :
    ∀ x y, pyLookup (pyErase hm host) x = some y ↔
      pyLookup (pyErase nm nick) y = some x := by
  have hn : pyLookup nm nick = some host := (inv host nick).mp hp
  intro x y
  constructor
  · intro hx
    by_cases hxh : x = host
    · subst hxh
      rw [pyLookup_erase_self _ _ wfh] at hx
      exact absurd hx (by simp)
    · rw [pyLookup_erase_ne _ _ _ hxh] at hx
      by_cases hyn : y = nick
      · have := (inv x y).mp hx
        rw [hyn, hn] at this
        injection this with hx2
        exact absurd hx2.symm hxh
      · rw [pyLookup_erase_ne _ _ _ hyn]
        exact (inv x y).mp hx
  · intro hy
    by_cases hyn : y = nick
    · subst hyn
      rw [pyLookup_erase_self _ _ wfn] at hy
      exact absurd hy (by simp)
    · rw [pyLookup_erase_ne _ _ _ hyn] at hy
      by_cases hxh : x = host
      · have := (inv x y).mpr hy
        rw [hxh, hp] at this
        injection this with hy2
        exact absurd hy2.symm hyn
      · rw [pyLookup_erase_ne _ _ _ hxh]
        exact (inv x y).mpr hy

theorem add_user_preserves (c : IrcChannel) (u : User)
    (hwf : chanWF c) (hinv : chanInv c)
    (hok : okOp c (MemOp.add u)) :
    chanWF (add_user c u) ∧ chanInv (add_user c u) := by
  obtain ⟨wfh, wfn⟩ := hwf
  obtain ⟨inv, hlen⟩ := hinv
  have hwf' : chanWF (add_user c u) :=
    ⟨keysNodup_insert _ _ _ wfh, keysNodup_insert _ _ _ wfn⟩
  rcases hok with ⟨hh, hn⟩ | hp
  · refine ⟨hwf', ?_, ?_⟩
    · intro x y
      simp only [add_user]
      constructor
      · intro hx
        by_cases hxu : x = u.host
        · subst hxu
          rw [pyLookup_insert] at hx
          injection hx with hy
          subst hy
          exact pyLookup_insert _ _ _
        · rw [pyLookup_insert_ne _ _ _ x hxu] at hx
          by_cases hyu : y = u.nick
          · subst hyu
            have := (inv x u.nick).mp hx
            rw [hn] at this
            exact absurd this (by simp)
          · rw [pyLookup_insert_ne _ _ _ y hyu]
            exact (inv x y).mp hx
      · intro hy
        by_cases hyu : y = u.nick
        · subst hyu
          rw [pyLookup_insert] at hy
          injection hy with hx
          subst hx
          exact pyLookup_insert _ _ _
        · rw [pyLookup_insert_ne _ _ _ y hyu] at hy
          by_cases hxu : x = u.host
          · subst hxu
            have := (inv u.host y).mpr hy
            rw [hh] at this
            exact absurd this (by simp)
          · rw [pyLookup_insert_ne _ _ _ x hxu]
            exact (inv x y).mpr hy
    · simp only [add_user]
      rw [pyInsert_length_absent _ _ _ hh, pyInsert_length_absent _ _ _ hn, hlen]
  · have hn2 : pyLookup c.nick_map u.nick = some u.host := (inv u.host u.nick).mp hp
    refine ⟨hwf', ?_, ?_⟩
    · intro x y
      simp only [add_user]
      rw [pyLookup_insert_present _ _ _ hp x, pyLookup_insert_present _ _ _ hn2 y]
      exact inv x y
    · simp only [add_user]
      rw [pyInsert_length_present _ _ _ (by rw [hp]; rfl),
        pyInsert_length_present _ _ _ (by rw [hn2]; rfl), hlen]

theorem update_nick_preserves (c : IrcChannel) (u : User) (nn : String)
    (hwf : chanWF c) (hinv : chanInv c)
    (hok : okOp c (MemOp.rename u nn)) :
    chanWF (update_nick c u nn) ∧ chanInv (update_nick c u nn) := by
  obtain ⟨wfh, wfn⟩ := hwf
  obtain ⟨inv, hlen⟩ := hinv
  rcases hok with ⟨hp, hcase⟩ | ⟨hh, hno, hnn⟩
  · -- the user is present under the old nick
    have hn : pyLookup c.nick_map u.nick = some u.host := (inv u.host u.nick).mp hp
    have hu : update_nick c u nn =
        { c with nick_map := pyInsert (pyErase c.nick_map u.nick) nn u.host,
                 host_map := pyInsert c.host_map u.host nn } := by
      unfold update_nick
      rw [hn]
      rfl
    rw [hu]
    have e_self : pyLookup (pyErase c.nick_map u.nick) u.nick = none :=
      pyLookup_erase_self _ _ wfn
    have e_len : (pyErase c.nick_map u.nick).length + 1 = c.nick_map.length :=
      pyErase_length_present _ _ (by rw [hn]; rfl)
    have hwf' : keysNodup (pyInsert c.host_map u.host nn) ∧
        keysNodup (pyInsert (pyErase c.nick_map u.nick) nn u.host) :=
      ⟨keysNodup_insert _ _ _ wfh, keysNodup_insert _ _ _ (keysNodup_erase _ _ wfn)⟩
    rcases hcase with rfl | hfresh
    · -- renaming to the same nick: both maps are pointwise unchanged
      have hmpt : ∀ x, pyLookup (pyInsert c.host_map u.host u.nick) x =
          pyLookup c.host_map x := pyLookup_insert_present _ _ _ hp
      have nmpt : ∀ y, pyLookup (pyInsert (pyErase c.nick_map u.nick) u.nick u.host) y =
          pyLookup c.nick_map y := by
        intro y
        by_cases hy : y = u.nick
        · subst hy
          rw [pyLookup_insert, hn]
        · rw [pyLookup_insert_ne _ _ _ y hy, pyLookup_erase_ne _ _ _ hy]
      refine ⟨hwf', ?_, ?_⟩
      · intro x y
        show pyLookup (pyInsert c.host_map u.host u.nick) x = some y ↔
          pyLookup (pyInsert (pyErase c.nick_map u.nick) u.nick u.host) y = some x
        rw [hmpt x, nmpt y]
        exact inv x y
      · show (pyInsert c.host_map u.host u.nick).length =
          (pyInsert (pyErase c.nick_map u.nick) u.nick u.host).length
        rw [pyInsert_length_present _ _ _ (by rw [hp]; rfl),
          pyInsert_length_absent _ _ _ e_self]
        omega
    · -- renaming to a fresh nick
      have hne : nn ≠ u.nick := by
        intro e
        rw [e, hn] at hfresh
        exact absurd hfresh (by simp)
      have e_fresh : pyLookup (pyErase c.nick_map u.nick) nn = none := by
        rw [pyLookup_erase_ne _ _ _ hne]
        exact hfresh
      refine ⟨hwf', ?_, ?_⟩
      · intro x y
        show pyLookup (pyInsert c.host_map u.host nn) x = some y ↔
          pyLookup (pyInsert (pyErase c.nick_map u.nick) nn u.host) y = some x
        constructor
        · intro hx
          by_cases hxh : x = u.host
          · subst hxh
            rw [pyLookup_insert] at hx
            injection hx with hy
            subst hy
            exact pyLookup_insert _ _ _
          · rw [pyLookup_insert_ne _ _ _ x hxh] at hx
            by_cases hynn : y = nn
            · have := (inv x y).mp hx
              rw [hynn, hfresh] at this
              exact absurd this (by simp)
            · rw [pyLookup_insert_ne _ _ _ y hynn]
              by_cases hyold : y = u.nick
              · have := (inv x y).mp hx
                rw [hyold, hn] at this
                injection this with hx2
                exact absurd hx2.symm hxh
              · rw [pyLookup_erase_ne _ _ _ hyold]
                exact (inv x y).mp hx
        · intro hy
          by_cases hynn : y = nn
          · subst hynn
            rw [pyLookup_insert] at hy
            injection hy with hx
            subst hx
            exact pyLookup_insert _ _ _
          · rw [pyLookup_insert_ne _ _ _ y hynn] at hy
            by_cases hyold : y = u.nick
            · rw [hyold, pyLookup_erase_self _ _ wfn] at hy
              exact absurd hy (by simp)
            · rw [pyLookup_erase_ne _ _ _ hyold] at hy
              by_cases hxh : x = u.host
              · have := (inv x y).mpr hy
                rw [hxh, hp] at this
                injection this with hy2
                exact absurd hy2.symm hyold
              · rw [pyLookup_insert_ne _ _ _ x hxh]
                exact (inv x y).mpr hy
      · show (pyInsert c.host_map u.host nn).length =
          (pyInsert (pyErase c.nick_map u.nick) nn u.host).length
        rw [pyInsert_length_present _ _ _ (by rw [hp]; rfl),
          pyInsert_length_absent _ _ _ e_fresh]
        omega
  · -- the host is unknown and both nicks are fresh: a plain insertion
    have hu : update_nick c u nn =
        { c with nick_map := pyInsert c.nick_map nn u.host,
                 host_map := pyInsert c.host_map u.host nn } := by
      unfold update_nick
      rw [hno]
      rfl
    rw [hu]
    refine ⟨⟨keysNodup_insert _ _ _ wfh, keysNodup_insert _ _ _ wfn⟩, ?_, ?_⟩
    · intro x y
      show pyLookup (pyInsert c.host_map u.host nn) x = some y ↔
        pyLookup (pyInsert c.nick_map nn u.host) y = some x
      exact fresh_pair_iff c.host_map c.nick_map u.host nn inv hh hnn x y
    · show (pyInsert c.host_map u.host nn).length =
        (pyInsert c.nick_map nn u.host).length
      rw [pyInsert_length_absent _ _ _ hh, pyInsert_length_absent _ _ _ hnn, hlen]

theorem remove_core_cases (c : IrcChannel) (nick0 host1 : Option String)
    (inv : ∀ x y, pyLookup c.host_map x = some y ↔ pyLookup c.nick_map y = some x) :
    (∃ h n, pyLookup c.host_map h = some n ∧
        remove_core c nick0 host1 =
          { c with nick_map := pyErase c.nick_map n,
                   host_map := pyErase c.host_map h }) ∨
    remove_core c nick0 host1 = c := by
  rcases nick0 with _ | n
  · -- no nick given
    rcases host1 with _ | h1
    · right
      rfl
    · rcases hmh : pyLookup c.host_map h1 with _ | n2
      · right
        simp only [remove_core, resolveHost, resolveNick, eraseIfPresent, hmh]
        rfl
      · left
        refine ⟨h1, n2, hmh, ?_⟩
        have hn2 : pyLookup c.nick_map n2 = some h1 := (inv h1 n2).mp hmh
        simp only [remove_core, resolveHost, resolveNick, eraseIfPresent, hmh, hn2]
        rfl
  · rcases hlook : pyLookup c.nick_map n with _ | h
    · -- given nick not in the nick map
      rcases host1 with _ | h1
      · right
        simp only [remove_core, resolveHost, resolveNick, eraseIfPresent, hlook]
        rfl
      · rcases hmh : pyLookup c.host_map h1 with _ | n2
        · right
          simp only [remove_core, resolveHost, resolveNick, eraseIfPresent, hlook, hmh]
          rfl
        · left
          refine ⟨h1, n2, hmh, ?_⟩
          have hn2 : pyLookup c.nick_map n2 = some h1 := (inv h1 n2).mp hmh
          simp only [remove_core, resolveHost, resolveNick, eraseIfPresent, hlook, hmh, hn2]
          rfl
    · -- given nick resolves to a host
      left
      have hmh : pyLookup c.host_map h = some n := (inv h n).mpr hlook
      refine ⟨h, n, hmh, ?_⟩
      simp only [remove_core, resolveHost, resolveNick, eraseIfPresent, hlook, hmh]
      rfl

theorem remove_core_preserves (c : IrcChannel) (nick0 host1 : Option String)
    (hwf : chanWF c) (hinv : chanInv c) :
    chanWF (remove_core c nick0 host1) ∧ chanInv (remove_core c nick0 host1) := by
  obtain ⟨wfh, wfn⟩ := hwf
  obtain ⟨inv, hlen⟩ := hinv
  rcases remove_core_cases c nick0 host1 inv with ⟨h, n, hmh, hc⟩ | hc
  · rw [hc]
    have hn : pyLookup c.nick_map n = some h := (inv h n).mp hmh
    refine ⟨⟨keysNodup_erase _ _ wfh, keysNodup_erase _ _ wfn⟩, ?_, ?_⟩
    · intro x y
      exact erase_pair_iff c.host_map c.nick_map h n wfh wfn inv hmh x y
    · show (pyErase c.host_map h).length = (pyErase c.nick_map n).length
      have l1 := pyErase_length_present c.host_map h (by rw [hmh]; rfl)
      have l2 := pyErase_length_present c.nick_map n (by rw [hn]; rfl)
      omega
  · rw [hc]
    exact ⟨⟨wfh, wfn⟩, inv, hlen⟩

theorem applyOp_preserves (c : IrcChannel) (op : MemOp)
    (hwf : chanWF c) (hinv : chanInv c) (hok : okOp c op) :
    chanWF (applyOp c op) ∧ chanInv (applyOp c op) := by
  cases op with
  | add u => exact add_user_preserves c u hwf hinv hok
  | remove n0 h0 =>
    rcases ht : (pyTruthy n0 || pyTruthy h0) with _ | _
    · have he : applyOp c (MemOp.remove n0 h0) = c := by
        simp only [applyOp, remove_user, ht]
        rfl
      rw [he]
      exact ⟨hwf, hinv⟩
    · have he : applyOp c (MemOp.remove n0 h0) =
          remove_core c n0 (h0.map stripAtHost) := by
        simp only [applyOp, remove_user, ht]
        rfl
      rw [he]
      exact remove_core_preserves c n0 (h0.map stripAtHost) hwf hinv
  | rename u nn => exact update_nick_preserves c u nn hwf hinv hok

theorem applyOps_preserves (ops : List MemOp) :
    ∀ c, chanWF c → chanInv c → okOps c ops →
      chanWF (applyOps c ops) ∧ chanInv (applyOps c ops) := by
  induction ops with
  | nil =>
    intro c hwf hinv _
    exact ⟨hwf, hinv⟩
  | cons op rest ih =>
    intro c hwf hinv hok
    obtain ⟨hok1, hokr⟩ := hok
    have h1 := applyOp_preserves c op hwf hinv hok1
    exact ih (applyOp c op) h1.1 h1.2 hokr

/-- C1 counterexample: the claim that EVERY sequence of membership
operations keeps `host_map` and `nick_map` inverse bijections is false:
adding a second user with the same host but another nick (as the code
permits) overwrites the host entry while leaving both nick entries, so
the maps end with different cardinalities and are no longer inverse. -/
theorem C1_counterexample :
    ¬ chanInv (applyOps (Channel.init "#test")
      [MemOp.add { nick := "alice", host := "example.com" },
       MemOp.add { nick := "bob", host := "example.com" }]) :=
  fun h => absurd h.2 (by decide)

/-- C1 (amended): for every sequence of membership operations starting
from an empty channel, the two maps remain inverse bijections with equal
cardinality, PROVIDED each `add_user` is for a pair whose host and nick
are both unmapped or already mapped to each other, and each
`update_nick` either renames a user currently present under the old
nick to a nick not held by anyone else, or inserts a fresh pair
(`remove_user` needs no side condition). -/
theorem C1_membership_invariant (name : String) (ops : List MemOp)
    (hok : okOps (Channel.init name) ops) :
    chanInv (applyOps (Channel.init name) ops) :=
  (applyOps_preserves ops (Channel.init name)
    ⟨List.nodup_nil, List.nodup_nil⟩
    ⟨fun h n => by simp [Channel.init, pyLookup], rfl⟩
    hok).2

/-- C1 witness: a concrete add / rename / remove sequence satisfying the
side conditions, on which the invariant indeed holds. -/
theorem C1_membership_invariant_witness :
    okOps (Channel.init "#test")
      [MemOp.add { nick := "alice", host := "h1" },
       MemOp.rename { nick := "alice", host := "h1" } "bob",
       MemOp.remove (some "bob") none] ∧
    chanInv (applyOps (Channel.init "#test")
      [MemOp.add { nick := "alice", host := "h1" },
       MemOp.rename { nick := "alice", host := "h1" } "bob",
       MemOp.remove (some "bob") none]) := by
  have hok : okOps (Channel.init "#test")
      [MemOp.add { nick := "alice", host := "h1" },
       MemOp.rename { nick := "alice", host := "h1" } "bob",
       MemOp.remove (some "bob") none] :=
    ⟨Or.inl ⟨rfl, rfl⟩, Or.inl ⟨rfl, Or.inr rfl⟩, trivial, trivial⟩
  exact ⟨hok, C1_membership_invariant "#test" _ hok⟩

/-- C2: command resolution in `Bot._handle_command`: the `!` prefix is
stripped from the first word and the remainder lower-cased to form the
key; an exact registry hit resolves to that handler (keeping the typed
token); otherwise a unique prefix match resolves to that handler with
the full name substituted; zero or several prefix matches resolve to no
handler at all.  The concrete conjuncts are the spec's own examples for
the registry containing only "asdf" and for the ambiguous pair
"roll"/"repo". -/
theorem C2_command_resolution (commands : List (String × Nat)) (w : String) :
    (∀ f, pyLookup commands (strLower (strDrop w 1)) = some f →
        handle_command commands w = some (w, f)) ∧
    (pyLookup commands (strLower (strDrop w 1)) = none →
      ∀ full f,
        commands.filter (fun p => strStartsWith (strLower (strDrop w 1)) p.1) =
          [(full, f)] →
        handle_command commands w = some (cmdPrefixStr ++ full, f)) ∧
    (pyLookup commands (strLower (strDrop w 1)) = none →
      (commands.filter (fun p => strStartsWith (strLower (strDrop w 1)) p.1)).length ≠ 1 →
      handle_command commands w = none) ∧
    handle_command [("asdf", 7)] "!a" = some ("!asdf", 7) ∧
    handle_command [("asdf", 7)] "!as" = some ("!asdf", 7) ∧
    handle_command [("asdf", 7)] "!asd" = some ("!asdf", 7) ∧
    handle_command [("asdf", 7)] "!asdf" = some ("!asdf", 7) ∧
    handle_command [("asdf", 7)] "!b" = none ∧
    handle_command [("asdf", 7)] "!asdfg" = none ∧
    handle_command [("roll", 1), ("repo", 2)] "!r" = none := by
  refine ⟨?_, ?_, ?_, by decide, by decide, by decide, by decide, by decide,
    by decide, by decide⟩
  · intro f hf
    simp only [handle_command]
    rw [hf]
  · intro h0 full f hfil
    simp only [handle_command]
    rw [h0, hfil]
  · intro h0 hlen
    simp only [handle_command]
    rw [h0]
    rcases hfil : commands.filter (fun p => strStartsWith (strLower (strDrop w 1)) p.1)
      with _ | ⟨p1, rest⟩
    · rw [hfil]
    · rcases rest with _ | ⟨p2, rest2⟩
      · exact absurd (by rw [hfil]; rfl) hlen
      · rw [hfil]

/-- C2 witness: applying the exact-match clause at registry
`[("asdf", 7)]` and the typed token "!ASDF" (upper case lowers to the
registered key). -/
theorem C2_command_resolution_witness :
    pyLookup [("asdf", 7)] (strLower (strDrop "!ASDF" 1)) = some 7 ∧
    handle_command [("asdf", 7)] "!ASDF" = some ("!ASDF", 7) :=
  ⟨by decide, (C2_command_resolution [("asdf", 7)] "!ASDF").1 7 (by decide)⟩

/-! Command throttling (`Bot._call_command`) -/

theorem command_throttled_not_in_log (st : BotThrottle) (cmd : CommandInfo) (now : Nat)
    (hlook : pyLookup st.command_log cmd.command = none) :
    command_throttled st cmd now = false := by
  unfold command_throttled
  rw [hlook]

theorem command_throttled_admin (st : BotThrottle) (cmd : CommandInfo) (now : Nat)
    (hadmin : cmd.is_admin = true) :
    command_throttled st cmd now = false := by
  unfold command_throttled
  rcases h : pyLookup st.command_log cmd.command with _ | t
  · rfl
  · rw [hadmin]
    rfl

theorem command_throttled_spec (st : BotThrottle) (cmd : CommandInfo) (now t : Nat)
    (hlook : pyLookup st.command_log cmd.command = some t)
    (hadmin : cmd.is_admin = false) :
    command_throttled st cmd now =
      decide (diffSeconds now t <
        (if st.last_command = some (cmd.host, cmd.command, cmd.args)
          then SPAM_THROTTLE * 3 else SPAM_THROTTLE)) := by
  unfold command_throttled
  rw [hlook, hadmin]
  rfl

theorem call_command_of_throttled (st : BotThrottle) (cmd : CommandInfo) (now : Nat)
    (hth : command_throttled st cmd now = true) :
    call_command st cmd now = (st, false) := by
  unfold call_command
  rw [hth]
  rfl

theorem call_command_of_free (st : BotThrottle) (cmd : CommandInfo) (now : Nat)
    (hth : command_throttled st cmd now = false) :
    call_command st cmd now =
      ({ command_log := pyInsert st.command_log cmd.command now,
         last_command := some (cmd.host, cmd.command, cmd.args) }, true) := by
  unfold call_command
  rw [hth]
  rfl

theorem call_command_not_in_log (st : BotThrottle) (cmd : CommandInfo) (now : Nat)
    (hlook : pyLookup st.command_log cmd.command = none) :
    call_command st cmd now =
      ({ command_log := pyInsert st.command_log cmd.command now,
         last_command := some (cmd.host, cmd.command, cmd.args) }, true) :=
  call_command_of_free st cmd now (command_throttled_not_in_log st cmd now hlook)

theorem call_command_admin_fires (st : BotThrottle) (cmd : CommandInfo) (now : Nat)
    (hadmin : cmd.is_admin = true) :
    (call_command st cmd now).2 = true := by
  rw [call_command_of_free st cmd now (command_throttled_admin st cmd now hadmin)]

theorem call_command_fires_iff (st : BotThrottle) (cmd : CommandInfo) (now t : Nat)
    (hlook : pyLookup st.command_log cmd.command = some t)
    (hadmin : cmd.is_admin = false) :
    ((call_command st cmd now).2 = true ↔
      (if st.last_command = some (cmd.host, cmd.command, cmd.args)
        then SPAM_THROTTLE * 3 else SPAM_THROTTLE) ≤ diffSeconds now t) := by
  have hth := command_throttled_spec st cmd now t hlook hadmin
  generalize hT : (if st.last_command = some (cmd.host, cmd.command, cmd.args)
      then SPAM_THROTTLE * 3 else SPAM_THROTTLE) = T
  rw [hT] at hth
  by_cases hc : diffSeconds now t < T
  · rw [call_command_of_throttled st cmd now (by rw [hth]; exact decide_eq_true hc)]
    constructor
    · intro h
      exact absurd h (by simp)
    · intro h
      omega
  · rw [call_command_of_free st cmd now (by rw [hth]; exact decide_eq_false hc)]
    constructor
    · intro _
      omega
    · intro _
      rfl

/-- C3 counterexample: a throttled attempt does NOT update the log entry
or the last-command cursor: with "!x" logged at time 0 and a non-admin
repeat at time 1, the attempt is dropped, the log still reads 0 (not 1)
and the cursor is still `none`. -/
theorem C3_counterexample :
    (call_command { command_log := [("!x", 0)], last_command := none }
        { host := "h", command := "!x", args := [], is_admin := false } 1).2 = false ∧
    (call_command { command_log := [("!x", 0)], last_command := none }
        { host := "h", command := "!x", args := [], is_admin := false } 1).1 =
      { command_log := [("!x", 0)], last_command := none } ∧
    pyLookup (call_command { command_log := [("!x", 0)], last_command := none }
        { host := "h", command := "!x", args := [], is_admin := false } 1).1.command_log
      "!x" ≠ some 1 :=
  ⟨by decide, by decide, by decide⟩

/-- C3 (amended): the command-log entry and the last-command cursor are
updated only on attempts that actually fire; a throttled attempt
returns with the state completely unchanged, so dropped rapid repeats
do NOT reset the throttle window. -/
theorem C3_command_log_update (st : BotThrottle) (cmd : CommandInfo) (now : Nat) :
    ((call_command st cmd now).2 = false → (call_command st cmd now).1 = st) ∧
    ((call_command st cmd now).2 = true →
      pyLookup (call_command st cmd now).1.command_log cmd.command = some now ∧
      (call_command st cmd now).1.last_command =
        some (cmd.host, cmd.command, cmd.args)) := by
  cases hth : command_throttled st cmd now with
  | true =>
    rw [call_command_of_throttled st cmd now hth]
    exact ⟨fun _ => rfl, fun h => absurd h (by simp)⟩
  | false =>
    rw [call_command_of_free st cmd now hth]
    exact ⟨fun h => absurd h (by simp), fun _ => ⟨pyLookup_insert _ _ _, rfl⟩⟩

/-- C3 witness: a non-throttled invocation at time 5 updates both the
log entry and the cursor. -/
theorem C3_command_log_update_witness :
    (call_command { command_log := [], last_command := none }
        { host := "h", command := "!x", args := [], is_admin := false } 5).2 = true ∧
    pyLookup (call_command { command_log := [], last_command := none }
        { host := "h", command := "!x", args := [], is_admin := false } 5).1.command_log
      "!x" = some 5 ∧
    (call_command { command_log := [], last_command := none }
        { host := "h", command := "!x", args := [], is_admin := false } 5).1.last_command =
      some ("h", "!x", []) := by
  refine ⟨by decide, ?_, ?_⟩
  · exact ((C3_command_log_update { command_log := [], last_command := none }
      { host := "h", command := "!x", args := [], is_admin := false } 5).2 (by decide)).1
  · exact ((C3_command_log_update { command_log := [], last_command := none }
      { host := "h", command := "!x", args := [], is_admin := false } 5).2 (by decide)).2

/-- C4 counterexample: two identical non-admin commands 3 seconds apart
(more than the 2-second base) do NOT both fire: the identical
(host, command, args) triple raises the threshold to 6 seconds, so the
second is dropped. -/
theorem C4_counterexample :
    (call_command { command_log := [], last_command := none }
        { host := "h", command := "!x", args := ["a"], is_admin := false } 0).2 = true ∧
    (call_command
        (call_command { command_log := [], last_command := none }
          { host := "h", command := "!x", args := ["a"], is_admin := false } 0).1
        { host := "h", command := "!x", args := ["a"], is_admin := false } 3).2 = false :=
  ⟨by decide, by decide⟩

/-- C4 (amended): a non-admin invocation whose (host, command, args)
triple equals the last-command cursor is checked against 3 × 2 = 6
seconds, otherwise against 2 seconds; hence, starting from an empty
state (and within one day, where timedelta.seconds equals the real
difference), the first invocation fires, an identical non-admin repeat
fires iff at least 6 seconds elapsed, a repeat with different args
fires iff at least 2 seconds elapsed, and an admin repeat always fires
(admins bypass throttling entirely). -/
theorem C4_spam_throttle :
    (∀ (st : BotThrottle) (cmd : CommandInfo) (now t : Nat),
      pyLookup st.command_log cmd.command = some t →
      cmd.is_admin = false →
      ((call_command st cmd now).2 = true ↔
        (if st.last_command = some (cmd.host, cmd.command, cmd.args)
          then SPAM_THROTTLE * 3 else SPAM_THROTTLE) ≤ diffSeconds now t)) ∧
    (∀ (host command : String) (args : List String) (t1 t2 : Nat),
      t2 - t1 < 86400 →
      (call_command { command_log := [], last_command := none }
        { host := host, command := command, args := args, is_admin := false } t1).2
        = true ∧
      ((call_command
          (call_command { command_log := [], last_command := none }
            { host := host, command := command, args := args, is_admin := false } t1).1
          { host := host, command := command, args := args, is_admin := false } t2).2
          = true ↔ 6 ≤ t2 - t1) ∧
      (∀ args2, args2 ≠ args →
        ((call_command
            (call_command { command_log := [], last_command := none }
              { host := host, command := command, args := args, is_admin := false } t1).1
            { host := host, command := command, args := args2, is_admin := false } t2).2
            = true ↔ 2 ≤ t2 - t1)) ∧
      (call_command
          (call_command { command_log := [], last_command := none }
            { host := host, command := command, args := args, is_admin := false } t1).1
          { host := host, command := command, args := args, is_admin := true } t2).2
        = true) := by
  constructor
  · intro st cmd now t hlook hadmin
    exact call_command_fires_iff st cmd now t hlook hadmin
  · intro host command args t1 t2 hday
    have hmod : diffSeconds t2 t1 = t2 - t1 := Nat.mod_eq_of_lt hday
    have e1 : call_command { command_log := [], last_command := none }
        { host := host, command := command, args := args, is_admin := false } t1 =
        ({ command_log := [(command, t1)],
           last_command := some (host, command, args) }, true) :=
      call_command_not_in_log _ _ _ rfl
    rw [e1]
    have hl : pyLookup [(command, t1)] command = some t1 := by
      simp [pyLookup]
    refine ⟨rfl, ?_, ?_, ?_⟩
    · have h := call_command_fires_iff
        { command_log := [(command, t1)], last_command := some (host, command, args) }
        { host := host, command := command, args := args, is_admin := false } t2 t1 hl rfl
      rw [if_pos rfl, hmod] at h
      simpa [SPAM_THROTTLE] using h
    · intro args2 hargs
      have hne : ¬ ((some (host, command, args) : Option (String × String × List String)) =
          some (host, command, args2)) := by
        intro he
        injection he with he2
        have h3 := congrArg (fun p => p.2.2) he2
        exact hargs (Eq.symm h3)
      have h := call_command_fires_iff
        { command_log := [(command, t1)], last_command := some (host, command, args) }
        { host := host, command := command, args := args2, is_admin := false } t2 t1 hl rfl
      rw [if_neg hne, hmod] at h
      simpa [SPAM_THROTTLE] using h
    · exact call_command_admin_fires _ _ _ rfl

/-- C4 witness: the two-invocation scenario at host "h", command "!x",
args ["a"], times 0 and 6. -/
theorem C4_spam_throttle_witness :
    (call_command { command_log := [], last_command := none }
      { host := "h", command := "!x", args := ["a"], is_admin := false } 0).2 = true ∧
    ((call_command
        (call_command { command_log := [], last_command := none }
          { host := "h", command := "!x", args := ["a"], is_admin := false } 0).1
        { host := "h", command := "!x", args := ["a"], is_admin := false } 6).2 = true
      ↔ 6 ≤ 6 - 0) ∧
    (call_command
        (call_command { command_log := [], last_command := none }
          { host := "h", command := "!x", args := ["a"], is_admin := false } 0).1
        { host := "h", command := "!x", args := ["a"], is_admin := true } 6).2 = true := by
  have h := C4_spam_throttle.2 "h" "!x" ["a"] 0 6 (by decide)
  exact ⟨h.1, h.2.1, h.2.2.2⟩

/-- C5: `Bot._call_repliers` removes throttled replies from
`final_replies` while iterating over it.  At the failing input — batch
["a", "b"], both texts last sent in this channel at time 0, now = 1
(inside the 2-second window), non-admin — the claim (and the code's own
comment) expects both replies dropped and both timestamps refreshed,
but removing "a" shifts the list under the iterator so "b" is never
examined: it stays in the outgoing batch and its timestamp stays 0.
The singleton conjuncts show the claimed behavior does hold for
one-element batches (the spec's "I always work" scenario: sent at 0,
dropped at 1, sent again at 2, timestamp refreshed every time). -/
theorem C5_reply_throttle_behavior :
    call_repliers_throttle [("a", 0), ("b", 0)] ["a", "b"] 1 false =
      (["b"], [("a", 1), ("b", 0)]) ∧
    call_repliers_throttle [] ["I always work"] 0 false =
      (["I always work"], [("I always work", 0)]) ∧
    call_repliers_throttle [("I always work", 0)] ["I always work"] 1 false =
      ([], [("I always work", 1)]) ∧
    call_repliers_throttle [("I always work", 0)] ["I always work"] 2 false =
      (["I always work"], [("I always work", 2)]) :=
  ⟨by decide, by decide, by decide, by decide⟩

/-- C9 counterexample: with registry {"asdf"}, the typed tokens "!AS"
and "!as" differ only in letter case and resolve to the same registered
command, yet both are logged under the SAME key "!asdf" — and they do
throttle each other: after a prefix-resolved invocation logged under
"!asdf" at time 0, a case-variant repeat one second later (even from
another host) is dropped. -/
theorem C9_counterexample :
    ("!AS" : String) ≠ "!as" ∧
    command_log_key [("asdf", 7)] "!AS" = some "!asdf" ∧
    command_log_key [("asdf", 7)] "!as" = some "!asdf" ∧
    (call_command
        (call_command { command_log := [], last_command := none }
          { host := "h", command := "!asdf", args := [], is_admin := false } 0).1
        { host := "h2", command := "!asdf", args := [], is_admin := false } 1).2
      = false :=
  ⟨by decide, by decide, by decide, by decide⟩

/-- C9 (amended): the throttle log is keyed by `command.command`, the
literal token including the '!' prefix: an exact name match keeps the
sender's typed capitalization, while a unique-prefix match uses '!'
plus the full registered name exactly as registered; consequently two
exact-match invocations differing only in case are logged under
different keys, whereas prefix-matched invocations of the same command
share one key regardless of typed case (and can throttle each other). -/
theorem C9_command_log_key (commands : List (String × Nat)) (w1 w2 : String) :
    (∀ f, pyLookup commands (strLower (strDrop w1 1)) = some f →
        command_log_key commands w1 = some w1) ∧
    (pyLookup commands (strLower (strDrop w1 1)) = none →
      ∀ full f,
        commands.filter (fun p => strStartsWith (strLower (strDrop w1 1)) p.1) =
          [(full, f)] →
        command_log_key commands w1 = some (cmdPrefixStr ++ full)) ∧
    (w1 ≠ w2 →
      (∃ f1, pyLookup commands (strLower (strDrop w1 1)) = some f1) →
      (∃ f2, pyLookup commands (strLower (strDrop w2 1)) = some f2) →
      command_log_key commands w1 ≠ command_log_key commands w2) ∧
    (strLower (strDrop w1 1) = strLower (strDrop w2 1) →
      pyLookup commands (strLower (strDrop w1 1)) = none →
      command_log_key commands w1 = command_log_key commands w2) := by
  refine ⟨?_, ?_, ?_, ?_⟩
  · intro f hf
    simp only [command_log_key, handle_command]
    rw [hf]
    rfl
  · intro h0 full f hfil
    simp only [command_log_key, handle_command]
    rw [h0, hfil]
    rfl
  · intro hne hex1 hex2
    obtain ⟨f1, h1⟩ := hex1
    obtain ⟨f2, h2⟩ := hex2
    have e1 : command_log_key commands w1 = some w1 := by
      simp only [command_log_key, handle_command]
      rw [h1]
      rfl
    have e2 : command_log_key commands w2 = some w2 := by
      simp only [command_log_key, handle_command]
      rw [h2]
      rfl
    rw [e1, e2]
    intro he
    injection he with he2
    exact hne he2
  · intro h12 h0
    have h0' : pyLookup commands (strLower (strDrop w2 1)) = none := by
      rw [h12] at h0
      exact h0
    simp only [command_log_key, handle_command]
    rw [h12, h0']

/-- C9 witness: registry {"asdf"}: "!AS" and "!as" share the
lower-cased key "as" and have no exact hit, so both resolve to one and
the same log key. -/
theorem C9_command_log_key_witness :
    strLower (strDrop "!AS" 1) = strLower (strDrop "!as" 1) ∧
    pyLookup [("asdf", 7)] (strLower (strDrop "!AS" 1)) = none ∧
    command_log_key [("asdf", 7)] "!AS" = command_log_key [("asdf", 7)] "!as" :=
  ⟨by decide, by decide,
    (C9_command_log_key [("asdf", 7)] "!AS" "!as").2.2.2 (by decide) (by decide)⟩

/-- C6: `Connection.send` leaves every outgoing line of at most 500
characters unchanged (in particular a line of exactly 500 characters),
and truncates — does not split — every longer line, so the sent payload
is `msg[:497] + "..."`: exactly 500 characters ending with the ellipsis
marker. -/
theorem C6_send_truncation (msg : List Char) :
    (msg.length ≤ 500 → send_payload msg = msg) ∧
    (msg.length > 500 →
      (send_payload msg).length = 500 ∧
      send_payload msg = msg.take 497 ++ ('.' :: '.' :: '.' :: []) ∧
      List.IsSuffix ('.' :: '.' :: '.' :: []) (send_payload msg)) := by
  constructor
  · intro hle
    unfold send_payload MAX_MSG_CHARS
    rw [if_neg (by omega)]
  · intro hgt
    have he : send_payload msg = msg.take 497 ++ ('.' :: '.' :: '.' :: []) := by
      unfold send_payload MAX_MSG_CHARS
      rw [if_pos (by omega)]
    refine ⟨?_, he, ?_⟩
    · rw [he, List.length_append, List.length_take]
      simp only [List.length_cons, List.length_nil]
      omega
    · rw [he]
      exact List.suffix_append _ _

/-- C6 witness: a line of exactly 500 characters is untouched; a line
of 501 characters becomes a 500-character payload ending in "...". -/
theorem C6_send_truncation_witness :
    ((List.replicate 500 'a').length ≤ 500 ∧
      send_payload (List.replicate 500 'a') = List.replicate 500 'a') ∧
    ((List.replicate 501 'a').length > 500 ∧
      (send_payload (List.replicate 501 'a')).length = 500 ∧
      List.IsSuffix ('.' :: '.' :: '.' :: []) (send_payload (List.replicate 501 'a'))) := by
  have h1 := (C6_send_truncation (List.replicate 500 'a')).1
    (by rw [List.length_replicate])
  have h2 := (C6_send_truncation (List.replicate 501 'a')).2
    (by rw [List.length_replicate]; omega)
  exact ⟨⟨by rw [List.length_replicate], h1⟩,
    by rw [List.length_replicate]; omega, h2.1, h2.2.2⟩

/-! Receive loop (`IRCSocket.recv`) -/

theorem recvCont_false_stop (data : List Nat) (h : recvCont data = some false) :
    data = [] ∨ stopOk data := by
  unfold recvCont at h
  unfold stopOk
  rcases hd : data.reverse with _ | ⟨b, rest⟩
  · left
    have := congrArg List.reverse hd
    simpa using this
  · right
    rw [hd] at h
    rcases rest with _ | ⟨c, rest2⟩
    · dsimp only at h
      by_cases hb : b = 10
      · exact hb
      · rw [if_neg hb] at h
        exact absurd h (by simp)
    · dsimp only at h
      injection h with h2
      by_cases hb : b = 10
      · exact Or.inl hb
      · by_cases hc : c = 13
        · exact Or.inr hc
        · exfalso
          simp [hb, hc] at h2

theorem recvAux_ok_stop (chunks : List (List Nat)) :
    ∀ data d, recvAux chunks data = RecvResult.ok d → d ≠ [] ∧ stopOk d := by
  induction chunks with
  | nil =>
    intro data d h
    unfold recvAux at h
    rcases hc : recvCont data with _ | b
    · rw [hc] at h
      exact absurd h (by simp)
    · cases b
      · rw [hc] at h
        by_cases hdata : data = []
        · rw [if_pos hdata] at h
          exact absurd h (by simp)
        · rw [if_neg hdata] at h
          injection h with hd
          subst hd
          rcases recvCont_false_stop data hc with h1 | h1
          · exact absurd h1 hdata
          · exact ⟨hdata, h1⟩
      · rw [hc] at h
        exact absurd h (by simp)
  | cons c rest ih =>
    intro data d h
    unfold recvAux at h
    rcases hc : recvCont data with _ | b
    · rw [hc] at h
      exact absurd h (by simp)
    · cases b
      · rw [hc] at h
        by_cases hdata : data = []
        · rw [if_pos hdata] at h
          exact absurd h (by simp)
        · rw [if_neg hdata] at h
          injection h with hd
          subst hd
          rcases recvCont_false_stop data hc with h1 | h1
          · exact absurd h1 hdata
          · exact ⟨hdata, h1⟩
      · rw [hc] at h
        exact ih (data ++ c) d h

theorem recvCont_crlf (pre : List Nat) :
    recvCont (pre ++ [13, 10]) = some false := by
  have hrev : (pre ++ [13, 10]).reverse = 10 :: 13 :: pre.reverse := by
    simp
  unfold recvCont
  rw [hrev]
  rfl

/-- C7 counterexample: a single chunk "a\n" (bytes 97, 10) is returned
immediately even though the buffer does not end with the CR LF pair:
the loop also stops on a lone LF final byte (and likewise on a CR in
the second-to-last position). -/
theorem C7_counterexample :
    recv [[97, 10]] = RecvResult.ok [97, 10] ∧
    ¬ List.IsSuffix [13, 10] [97, 10] :=
  ⟨by decide, by decide⟩

/-- C7 (amended): `IRCSocket.recv` keeps reading chunks and returns the
buffered data as soon as its last byte is LF or its second-to-last byte
is CR — in particular as soon as it ends with CR LF — and the returned
buffer is never empty; it raises `IRCSocketError` when the FIRST read
returns zero bytes, whereas a zero-length read after partial data does
not raise (the loop just keeps reading, as the final conjunct shows). -/
theorem C7_recv :
    (∀ rest, recv ([] :: rest) = RecvResult.socketError) ∧
    (∀ chunks d, recv chunks = RecvResult.ok d → d ≠ [] ∧ stopOk d) ∧
    (∀ chunks pre, recvAux chunks (pre ++ [13, 10]) = RecvResult.ok (pre ++ [13, 10])) ∧
    recv [[97, 97], []] = RecvResult.blocked := by
  refine ⟨?_, ?_, ?_, by decide⟩
  · intro rest
    show recvAux rest [] = RecvResult.socketError
    rcases rest with _ | ⟨c, rest2⟩
    · rfl
    · rfl
  · intro chunks d h
    rcases chunks with _ | ⟨c, rest⟩
    · exact absurd h (by simp [recv])
    · exact recvAux_ok_stop rest c d h
  · intro chunks pre
    rcases chunks with _ | ⟨c, rest⟩
    · unfold recvAux
      rw [recvCont_crlf]
      rw [if_neg (by simp)]
    · unfold recvAux
      rw [recvCont_crlf]
      rw [if_neg (by simp)]

/-- C7 witness: two chunks "aa" then CR LF accumulate and return a
non-empty buffer satisfying the stop condition. -/
theorem C7_recv_witness :
    recv [[97, 97], [13, 10]] = RecvResult.ok [97, 97, 13, 10] ∧
    [97, 97, 13, 10] ≠ ([] : List Nat) ∧ stopOk [97, 97, 13, 10] := by
  have h := C7_recv.2.1 [[97, 97], [13, 10]] [97, 97, 13, 10] (by decide)
  exact ⟨by decide, h⟩

/-- C8: the reconnect policy: a socket failure in the receive loop
while not quitting schedules a reconnect after 5 seconds (and none at
all when quitting); a server-sent ERROR line containing the
reconnect-throttle text schedules one after 60 seconds, any other ERROR
line after 10 seconds; a keepalive ping timeout reconnects immediately,
with no delay. -/
theorem C8_reconnect_policy :
    recv_error_action false = ConnAction.reconnect (some 5) ∧
    recv_error_action true = ConnAction.noReconnect ∧
    (∀ msg rest, words_of msg = "ERROR" :: rest →
      handle_msg_action msg =
        ConnAction.reconnect
          (some (if str_contains msg throttleErrText then 60 else 10))) ∧
    ping_timeout_action = ConnAction.reconnect none := by
  refine ⟨rfl, rfl, ?_, rfl⟩
  intro msg rest hw
  unfold handle_msg_action
  rw [hw]
  show (if ("ERROR" : String) = "PING" then ConnAction.pong
    else if ("ERROR" : String) = "PONG" then ConnAction.resetPing
    else if ("ERROR" : String) = "ERROR" then
      if str_contains msg throttleErrText then ConnAction.reconnect (some 60)
      else ConnAction.reconnect (some 10)
    else ConnAction.other) =
    ConnAction.reconnect (some (if str_contains msg throttleErrText then 60 else 10))
  rw [if_neg (by decide : ¬ ("ERROR" : String) = "PING"),
    if_neg (by decide : ¬ ("ERROR" : String) = "PONG"),
    if_pos (rfl : ("ERROR" : String) = "ERROR")]
  by_cases hc : str_contains msg throttleErrText = true
  · rw [if_pos hc, if_pos hc]
  · rw [if_neg hc, if_neg hc]

/-- C8 witness: a concrete non-throttle ERROR line reconnects after 10
seconds. -/
theorem C8_reconnect_policy_witness :
    words_of "ERROR :Closing Link" = ["ERROR", ":Closing", "Link"] ∧
    handle_msg_action "ERROR :Closing Link" =
      ConnAction.reconnect
        (some (if str_contains "ERROR :Closing Link" throttleErrText then 60 else 10)) ∧
    handle_msg_action "ERROR :Closing Link" = ConnAction.reconnect (some 10) := by
  have h := C8_reconnect_policy.2.2.1 "ERROR :Closing Link" [":Closing", "Link"]
    (by decide)
  exact ⟨by decide, h, by decide⟩

/-- C10: `Channel.remove_user`, given at least one truthy argument
(the Python `assert nick or host`), never raises: every deletion and
lookup is membership-guarded; and when neither the given nick nor the
normalized host is present in the channel's maps, both maps are left
unchanged. -/
theorem C10_remove_user_safe (c : IrcChannel) (nick0 host0 : Option String)
    (hgiven : (pyTruthy nick0 || pyTruthy host0) = true) :
    (∃ c', remove_user c nick0 host0 = Except.ok c') ∧
    ((∀ n, nick0 = some n → pyLookup c.nick_map n = none) →
     (∀ h, host0 = some h → pyLookup c.host_map (stripAtHost h) = none) →
     remove_user c nick0 host0 = Except.ok c) := by
  constructor
  · refine ⟨remove_core c nick0 (host0.map stripAtHost), ?_⟩
    unfold remove_user
    rw [if_pos hgiven]
  · intro hnick hhost
    unfold remove_user
    rw [if_pos hgiven]
    congr 1
    rcases nick0 with _ | n
    · rcases host0 with _ | h
      · rfl
      · have hh := hhost h rfl
        show remove_core c none (some (stripAtHost h)) = c
        simp only [remove_core, resolveHost, resolveNick, eraseIfPresent, hh]
        rfl
    · have hn := hnick n rfl
      rcases host0 with _ | h
      · show remove_core c (some n) none = c
        simp only [remove_core, resolveHost, resolveNick, eraseIfPresent, hn]
        rfl
      · have hh := hhost h rfl
        show remove_core c (some n) (some (stripAtHost h)) = c
        simp only [remove_core, resolveHost, resolveNick, eraseIfPresent, hn, hh]
        rfl

/-- C10 witness: removing an absent nick from a one-user channel
succeeds and changes nothing. -/
theorem C10_remove_user_safe_witness :
    (pyTruthy (some "ghost") || pyTruthy none) = true ∧
    remove_user (add_user (Channel.init "#t") { nick := "alice", host := "h1" })
        (some "ghost") none =
      Except.ok (add_user (Channel.init "#t") { nick := "alice", host := "h1" }) := by
  refine ⟨by decide, (C10_remove_user_safe
    (add_user (Channel.init "#t") { nick := "alice", host := "h1" })
    (some "ghost") none (by decide)).2 ?_ ?_⟩
  · intro n hn
    injection hn with he
    subst he
    decide
  · intro h hh
    exact absurd hh (by simp)

end Botologist
